import Mathlib

/-!
# miquella/xdg: a shallow embedding of `paths.go` and `xdg.go`

Go strings are modelled as lists of characters (`GoString`); a Go slice is a
list, so a nil slice and an empty slice are the same value.  The helpers of
the Go standard library that the package calls (`strings.Split`,
`strings.Join`, `filepath.IsAbs`, `filepath.Clean`, `filepath.Join`,
`filepath.FromSlash`, `os.Getenv`, `os.Stat`, `os.IsNotExist`,
`filepath.Glob`) are modelled after their Unix implementations, where the
path separator is `/` and there is no volume name.
-/

namespace xdg

/-- A Go `string`. -/
abbrev GoString := List Char

/-! ## Standard library: `strings` -/

namespace strings

/-- The call `strings.Split(s, sep)` for a one-byte separator: the pieces of
`s` between the occurrences of `sep`; always at least one piece. -/
def Split : GoString → Char → List GoString
  | [], _ => [[]]
  | c :: cs, sep =>
    if c = sep then [] :: Split cs sep
    else
      match Split cs sep with
      | [] => [[c]]
      | piece :: pieces => (c :: piece) :: pieces

/-- The call `strings.Join(elems, sep)`. -/
def Join : List GoString → GoString → GoString
  | [], _ => []
  | [e], _ => e
  | e :: e' :: es, sep => e ++ sep ++ Join (e' :: es) sep

end strings

/-! ## Standard library: `path/filepath` (Unix) -/

namespace filepath

/-- The constant `filepath.Separator`. -/
def Separator : Char := '/'

/-- The function `os.IsPathSeparator`. -/
def IsPathSeparator (c : Char) : Bool := c == Separator

/-- The function `filepath.IsAbs`: on Unix, `strings.HasPrefix(path, "/")`. -/
def IsAbs : GoString → Bool
  | [] => false
  | c :: _ => c == '/'

/-- The function `filepath.FromSlash`: the identity where the separator is `/`. -/
def FromSlash (path : GoString) : GoString := path

/-- State of the loop of `filepath.Clean`.  The output buffer is kept
reversed (`rout.head?` is the byte written last), so that the write index
`out.w` of the source is `rout.length`. -/
structure CleanState where
  /-- Output written so far, last byte first. -/
  rout : List Char
  /-- Length of the output below which a `..` element may not backtrack. -/
  dotdot : Nat
deriving DecidableEq

/-- The backtracking of a `..` element in `filepath.Clean`:
`out.w--; for out.w > dotdot && !IsPathSeparator(out.index(out.w)) { out.w-- }`,
entered with `out.w > dotdot`. -/
def backtrack (dotdot : Nat) : List Char → List Char
  | [] => []
  | c :: rest =>
    if dotdot < rest.length && !IsPathSeparator c then backtrack dotdot rest
    else rest

/-- One iteration of the loop `for r < n` of `filepath.Clean` on the unread
input `c :: cs`: the unread input afterwards and the new state. -/
def cleanStep (rooted : Bool) (c : Char) (cs : List Char) (st : CleanState) :
    List Char × CleanState :=
  if IsPathSeparator c then
    -- empty path element
    (cs, st)
  else if c = '.' ∧ (cs = [] ∨ (cs.head?.map IsPathSeparator) = some true) then
    -- . element
    (cs, st)
  else if c = '.' ∧ cs.head? = some '.' ∧
      (cs.tail = [] ∨ (cs.tail.head?.map IsPathSeparator) = some true) then
    -- .. element: remove to last separator
    if st.dotdot < st.rout.length then
      (cs.tail, { st with rout := backtrack st.dotdot st.rout })
    else if !rooted then
      let out1 := if 0 < st.rout.length then Separator :: st.rout else st.rout
      let out2 := '.' :: '.' :: out1
      (cs.tail, { rout := out2, dotdot := out2.length })
    else
      (cs.tail, st)
  else
    -- real path element: add slash if needed, then copy the element
    let out1 :=
      if (rooted && st.rout.length != 1) || (!rooted && st.rout.length != 0) then
        Separator :: st.rout
      else st.rout
    let input := c :: cs
    let element := input.takeWhile (fun b => !IsPathSeparator b)
    (input.dropWhile (fun b => !IsPathSeparator b),
      { st with rout := element.reverse ++ out1 })

/-- The loop `for r < n` of `filepath.Clean`; every iteration reads at least
one byte, so `fuel = len(path)` iterations are enough. -/
def cleanLoop (rooted : Bool) : Nat → List Char → CleanState → CleanState
  | 0, _, st => st
  | _, [], st => st
  | fuel + 1, c :: cs, st =>
    let next := cleanStep rooted c cs st
    cleanLoop rooted fuel next.1 next.2

/-- The function `filepath.Clean` (Unix: no volume name). -/
def Clean (path : GoString) : GoString :=
  match path with
  | [] => ['.']
  | c :: cs =>
    let rooted := IsPathSeparator c
    let start : List Char × CleanState :=
      if rooted then (cs, { rout := [Separator], dotdot := 1 })
      else (c :: cs, { rout := [], dotdot := 0 })
    let out := cleanLoop rooted start.1.length start.1 start.2
    -- Turn empty string into "."
    let out := if out.rout.length = 0 then ['.'] else out.rout
    FromSlash out.reverse

/-- The function `filepath.Join`: the elements from the first non-empty one
on, joined with the separator and cleaned; `""` when all are empty. -/
def Join : List GoString → GoString
  | [] => []
  | e :: rest =>
    if e ≠ [] then Clean (strings.Join (e :: rest) [Separator])
    else Join rest

end filepath

/-! ## Standard library: `os` -/

/-- A Go `error` value, as far as the package tells errors apart. -/
inductive GoError where
  /-- An error for which `os.IsNotExist` reports true (`ENOENT`). -/
  | notExist
  /-- Any other error (`EACCES`, `ENOTDIR`, `ErrBadPattern`, ...). -/
  | other (code : Nat)
deriving DecidableEq

namespace os

/-- The process environment: the value of each variable that is set. -/
abbrev Environ := GoString → Option GoString

/-- The function `os.Getenv`: the value of the variable, `""` when it is not
set. -/
def Getenv (env : Environ) (key : GoString) : GoString :=
  match env key with
  | some value => value
  | none => []

/-- The state of the file system, as `os.Stat` sees it: the error that
`os.Stat(name)` returns, `none` for `nil` (the file exists). -/
abbrev FileSystem := GoString → Option GoError

/-- The error result of `os.Stat(name)`. -/
def Stat (fs : FileSystem) (name : GoString) : Option GoError := fs name

/-- The function `os.IsNotExist`; it is false of a `nil` error. -/
def IsNotExist : Option GoError → Bool
  | some GoError.notExist => true
  | _ => false

end os

/-- The result `([]string, error)` of `filepath.Glob` on each pattern, for one
state of the file system. -/
abbrev GlobFn := GoString → List GoString × Option GoError

/-! ## `paths.go` -/

/-- IsValid returns whether the path can be used: a valid path is a non-empty,
absolute path. -/
def IsValid (path : GoString) : Bool :=
  path != [] && filepath.IsAbs path

/-- Path is a representation of a single valid path (`type Path string`). -/
abbrev Path := GoString

/-- PathWithDefault returns `path`, if it is valid, or `defaultPath`
otherwise. -/
def PathWithDefault (path : GoString) (defaultPath : Path) : Path :=
  if IsValid path then path else defaultPath

/-- The method `(p Path) IsValid()`. -/
def Path.IsValid (p : Path) : Bool := xdg.IsValid p

/-- The method `(p Path) Join(elem ...string)`. -/
def Path.Join (p : Path) (elem : List GoString) : GoString :=
  filepath.Join ([p] ++ elem)

/-- The method `(p Path) Find(elem ...string)`. -/
def Path.Find (fs : os.FileSystem) (p : Path) (elem : List GoString) : GoString :=
  let file := Path.Join p elem
  let err := os.Stat fs file
  if os.IsNotExist err then [] else file

/-- The method `(p Path) Glob(pattern string)`. -/
def Path.Glob (glob : GlobFn) (p : Path) (pattern : GoString) :
    List GoString × Option GoError :=
  glob (filepath.Join [p, pattern])

/-- Paths is a representation of a set of valid paths (`type Paths []Path`). -/
abbrev Paths := List Path

/-- PathsWithDefault returns a set including all valid values from `paths`; if
no values in `paths` are valid, `defaultPaths` is returned instead. -/
def PathsWithDefault (paths : List GoString) (defaultPaths : Paths) : Paths :=
  let p : Paths := paths.foldl (fun p path => if IsValid path then p ++ [path] else p) []
  if p.length = 0 then defaultPaths.foldl (fun p path => p ++ [path]) p
  else p

/-- The method `(p Paths) Find(elem ...string)`. -/
def Paths.Find (fs : os.FileSystem) (p : Paths) (elem : List GoString) : List GoString :=
  p.foldl
    (fun found path =>
      let file := Path.Find fs path elem
      if file ≠ [] then found ++ [file] else found)
    []

/-- The loop of `(p Paths) Glob`: it returns at the first path whose
`Path.Glob` fails. -/
def Paths.globLoop (glob : GlobFn) (pattern : GoString) :
    List Path → List GoString → List GoString × Option GoError
  | [], found => (found, none)
  | path :: rest, found =>
    match Path.Glob glob path pattern with
    | (pathMatches, none) => Paths.globLoop glob pattern rest (found ++ pathMatches)
    | (_, some err) => ([], some err)

/-- The method `(p Paths) Glob(pattern string)`. -/
def Paths.Glob (glob : GlobFn) (p : Paths) (pattern : GoString) :
    List GoString × Option GoError :=
  Paths.globLoop glob pattern p []

/-- The method `(p Paths) Join(elem ...string)`: the argument buffer
`pathElem` is built once and its first slot is overwritten for each path. -/
def Paths.Join (p : Paths) (elem : List GoString) : List GoString :=
  let pathElem : List GoString := [[]] ++ elem
  (p.foldl
    (fun (acc : List GoString × List GoString) path =>
      let pathElem := acc.1.set 0 path
      (pathElem, acc.2 ++ [filepath.Join pathElem]))
    (pathElem, [])).2

/-! ## `xdg.go` -/

/-- The struct `XDG`; the eight package-level variables of the same names are
held in a record of this type too. -/
structure XDG where
  /-- Both user-specific and standard directories to search for data files. -/
  DATA : Paths
  /-- Directory to write user-specific data files. -/
  DATA_HOME : Path
  /-- Directories to search for data files, in preference order. -/
  DATA_DIRS : Paths
  /-- Both user-specific and standard directories to search for config files. -/
  CONFIG : Paths
  /-- Directory to write user-specific config files. -/
  CONFIG_HOME : Path
  /-- Directories to search for config files, in preference order. -/
  CONFIG_DIRS : Paths
  /-- Directory to write user-specific, non-essential (cached) data files. -/
  CACHE_HOME : Path
  /-- Directory to write user-specific runtime files and other file objects. -/
  RUNTIME_DIR : Path
deriving DecidableEq

/-- The function `init`: the package-level variables it assigns, from the
process environment. -/
def init (env : os.Environ) : XDG :=
  let home := os.Getenv env "HOME".toList
  -- defaults
  let data_home_default : Path := filepath.Join [home, ".local".toList, "share".toList]
  let data_dirs_default : Paths :=
    [filepath.FromSlash "/usr/local/share".toList, filepath.FromSlash "/usr/share".toList]
  let config_home_default : Path := filepath.Join [home, ".config".toList]
  let config_dirs_default : Paths := [filepath.FromSlash "/etc/xdg".toList]
  let cache_home_default : Path := filepath.Join [home, ".cache".toList]
  -- DATA
  let data_home := PathWithDefault (os.Getenv env "XDG_DATA_HOME".toList) data_home_default
  let data_dirs :=
    PathsWithDefault (strings.Split (os.Getenv env "XDG_DATA_DIRS".toList) ':') data_dirs_default
  -- CONFIG
  let config_home := PathWithDefault (os.Getenv env "XDG_CONFIG_HOME".toList) config_home_default
  let config_dirs :=
    PathsWithDefault (strings.Split (os.Getenv env "XDG_CONFIG_DIRS".toList) ':') config_dirs_default
  { DATA_HOME := data_home
    DATA_DIRS := data_dirs
    DATA := [data_home] ++ data_dirs
    CONFIG_HOME := config_home
    CONFIG_DIRS := config_dirs
    CONFIG := [config_home] ++ config_dirs
    -- CACHE
    CACHE_HOME := PathWithDefault (os.Getenv env "XDG_CACHE_HOME".toList) cache_home_default
    -- RUNTIME: explicitly set to nothing if the XDG_RUNTIME_DIR is invalid
    RUNTIME_DIR := PathWithDefault (os.Getenv env "XDG_RUNTIME_DIR".toList) [] }

/-- WithSuffix joins a given name to each of the paths resolved by the
package; `pkg` holds the package-level variables that it reads. -/
def WithSuffix (pkg : XDG) (name : GoString) : XDG :=
  let data_home : Path := Path.Join pkg.DATA_HOME [name]
  let data_dirs : Paths :=
    pkg.DATA_DIRS.foldl (fun data_dirs dir => data_dirs ++ [Path.Join dir [name]]) []
  let config_home : Path := Path.Join pkg.CONFIG_HOME [name]
  let config_dirs : Paths :=
    pkg.CONFIG_DIRS.foldl (fun config_dirs dir => config_dirs ++ [Path.Join dir [name]]) []
  let cache_home : Path := Path.Join pkg.CACHE_HOME [name]
  let runtime_dir : Path := Path.Join pkg.RUNTIME_DIR [name]
  { DATA_HOME := data_home
    DATA_DIRS := data_dirs
    DATA := [data_home] ++ data_dirs
    CONFIG_HOME := config_home
    CONFIG_DIRS := config_dirs
    CONFIG := [config_home] ++ config_dirs
    CACHE_HOME := cache_home
    RUNTIME_DIR := runtime_dir }

/-- An environment given by the list of its variables; the first binding of a
key is the one in force. -/
def envOf (vars : List (String × String)) : os.Environ :=
  fun key => (vars.find? (fun kv => kv.1.toList = key)).map (fun kv => kv.2.toList)

/-- A file system in which exactly the listed names exist and `os.Stat` of
every other name fails with a not-exist error. -/
def fsOf (files : List String) : os.FileSystem :=
  fun name => if files.any (fun f => f.toList = name) then none else some GoError.notExist

/-- A file system that holds exactly the listed regular files: `os.Stat` of a
listed name succeeds, `os.Stat` of a name below a listed file fails because a
component of the name is not a directory (20 stands for `ENOTDIR`), and every
other name does not exist. -/
def fsRegular (files : List String) : os.FileSystem :=
  fun name =>
    if files.any (fun f => f.toList = name) then none
    else if files.any (fun f => name.take (f.length + 1) = f.toList ++ ['/']) then
      some (GoError.other 20)
    else some GoError.notExist

/-- A file system in which `os.Stat` of the one listed name fails with an error
other than not-exist (13 stands for `EACCES`) and every other name does not
exist. -/
def fsDenied (file : String) : os.FileSystem :=
  fun name => if file.toList = name then some (GoError.other 13) else some GoError.notExist

/-- The memory that a call of `WithSuffix` works on: the eight package-level
variables and the local variables of the call. -/
structure Memory where
  /-- The package-level variables `DATA`, `DATA_HOME`, ..., `RUNTIME_DIR`. -/
  pkg : XDG
  /-- The local variable `data_home`. -/
  data_home : Path
  /-- The local variable `data_dirs`. -/
  data_dirs : Paths
  /-- The local variable `config_home`. -/
  config_home : Path
  /-- The local variable `config_dirs`. -/
  config_dirs : Paths
  /-- The local variable `cache_home`. -/
  cache_home : Path
  /-- The local variable `runtime_dir`. -/
  runtime_dir : Path
deriving DecidableEq

/-- The statements of `WithSuffix` before its `return`, one after the other,
each as the change it makes to the memory. -/
def WithSuffix.body (name : GoString) (m : Memory) : Memory :=
  let m := { m with data_home := Path.Join m.pkg.DATA_HOME [name] }
  let m := { m with data_dirs := [] }
  let m := m.pkg.DATA_DIRS.foldl
    (fun m dir => { m with data_dirs := m.data_dirs ++ [Path.Join dir [name]] }) m
  let m := { m with config_home := Path.Join m.pkg.CONFIG_HOME [name] }
  let m := { m with config_dirs := [] }
  let m := m.pkg.CONFIG_DIRS.foldl
    (fun m dir => { m with config_dirs := m.config_dirs ++ [Path.Join dir [name]] }) m
  let m := { m with cache_home := Path.Join m.pkg.CACHE_HOME [name] }
  { m with runtime_dir := Path.Join m.pkg.RUNTIME_DIR [name] }

/-- A call of `WithSuffix` in a state of the package-level variables: the
struct it returns, and the package-level variables after the call. -/
def WithSuffix.call (name : GoString) (pkg : XDG) : XDG × XDG :=
  let m := WithSuffix.body name
    { pkg := pkg, data_home := [], data_dirs := [], config_home := [], config_dirs := [],
      cache_home := [], runtime_dir := [] }
  ({ DATA_HOME := m.data_home
     DATA_DIRS := m.data_dirs
     DATA := [m.data_home] ++ m.data_dirs
     CONFIG_HOME := m.config_home
     CONFIG_DIRS := m.config_dirs
     CONFIG := [m.config_home] ++ m.config_dirs
     CACHE_HOME := m.cache_home
     RUNTIME_DIR := m.runtime_dir },
    m.pkg)

/-- Results of `filepath.Glob` in a file system that holds `/a/x.txt`,
`/a/y.txt` and `/c/z.txt`: the pattern `/opt/[app/*.txt` is malformed (error 0
stands for `ErrBadPattern`), and any other pattern matches nothing. -/
def globDemo : GlobFn :=
  fun pattern =>
    if pattern = "/a/*.txt".toList then (["/a/x.txt".toList, "/a/y.txt".toList], none)
    else if pattern = "/c/*.txt".toList then (["/c/z.txt".toList], none)
    else if pattern = "/opt/[app/*.txt".toList then ([], some (GoError.other 0))
    else ([], none)

/-! ## The model of the standard library on known inputs -/

/-- The model of `filepath.Clean` on inputs with repeated separators, `.` and
`..` elements, rooted and not. -/
theorem filepath.Clean_known_values :
    filepath.Clean "".toList = ".".toList ∧
    filepath.Clean "abc".toList = "abc".toList ∧
    filepath.Clean "/".toList = "/".toList ∧
    filepath.Clean "..".toList = "..".toList ∧
    filepath.Clean "../../abc".toList = "../../abc".toList ∧
    filepath.Clean "abc/".toList = "abc".toList ∧
    filepath.Clean "abc//def//ghi".toList = "abc/def/ghi".toList ∧
    filepath.Clean "//abc//".toList = "/abc".toList ∧
    filepath.Clean "/./abc/def".toList = "/abc/def".toList ∧
    filepath.Clean "abc/.".toList = "abc".toList ∧
    filepath.Clean "abc/def/../ghi/../jkl".toList = "abc/jkl".toList ∧
    filepath.Clean "abc/def/../..".toList = ".".toList ∧
    filepath.Clean "/abc/def/../../..".toList = "/".toList ∧
    filepath.Clean "abc/def/../../../ghi/jkl/../../../mno".toList = "../../mno".toList ∧
    filepath.Clean "/../abc".toList = "/abc".toList ∧
    filepath.Clean "abc/../../././../def".toList = "../../def".toList ∧
    filepath.Clean "..a/.b/...".toList = "..a/.b/...".toList := by
  decide

/-- The model of `filepath.Join` on known inputs: empty elements are skipped
and the result is cleaned. -/
theorem filepath.Join_known_values :
    filepath.Join [] = [] ∧
    filepath.Join ["".toList, "".toList] = [] ∧
    filepath.Join ["".toList, "myapp".toList] = "myapp".toList ∧
    filepath.Join ["a".toList, "".toList] = "a".toList ∧
    filepath.Join ["/".toList, "a".toList] = "/a".toList ∧
    filepath.Join ["a/".toList, "/b".toList] = "a/b".toList ∧
    filepath.Join ["/home/alice".toList, ".local".toList, "share".toList]
      = "/home/alice/.local/share".toList ∧
    filepath.Join ["/usr/share".toList, "../etc".toList] = "/usr/etc".toList := by
  decide

/-- The model of `strings.Split` on known inputs: one piece more than there
are separators. -/
theorem strings.Split_known_values :
    strings.Split "".toList ':' = ["".toList] ∧
    strings.Split ":".toList ':' = ["".toList, "".toList] ∧
    strings.Split ":a:".toList ':' = ["".toList, "a".toList, "".toList] ∧
    strings.Split "/etc/xdg:/opt/xdg:relative/bad".toList ':'
      = ["/etc/xdg".toList, "/opt/xdg".toList, "relative/bad".toList] := by
  decide

/-! ## Loops as list operations -/

theorem foldl_append_valid (paths : List GoString) (acc : Paths) :
    paths.foldl (fun p path => if IsValid path then p ++ [path] else p) acc
      = acc ++ paths.filter IsValid := by
  induction paths generalizing acc with
  | nil => simp
  | cons path rest ih =>
    by_cases h : IsValid path = true
    · simp [List.foldl_cons, ih, h, List.filter_cons]
    · simp [List.foldl_cons, ih, h, List.filter_cons]

theorem foldl_append_copy (paths acc : Paths) :
    paths.foldl (fun p path => p ++ [path]) acc = acc ++ paths := by
  induction paths generalizing acc with
  | nil => simp
  | cons path rest ih => simp [List.foldl_cons, ih]

theorem foldl_append_map {α β : Type} (f : α → β) (xs : List α) (acc : List β) :
    xs.foldl (fun out x => out ++ [f x]) acc = acc ++ xs.map f := by
  induction xs generalizing acc with
  | nil => simp
  | cons x rest ih => simp [List.foldl_cons, ih]

theorem PathsWithDefault_eq (paths : List GoString) (defaultPaths : Paths) :
    PathsWithDefault paths defaultPaths
      = if paths.filter IsValid = [] then defaultPaths else paths.filter IsValid := by
  unfold PathsWithDefault
  simp only [foldl_append_valid, List.nil_append, List.length_eq_zero]
  by_cases h : paths.filter IsValid = []
  · simp [h, foldl_append_copy]
  · simp [h]

theorem WithSuffix_DATA_DIRS (pkg : XDG) (name : GoString) :
    (WithSuffix pkg name).DATA_DIRS = pkg.DATA_DIRS.map (fun dir => Path.Join dir [name]) := by
  simp [WithSuffix, foldl_append_map]

theorem WithSuffix_CONFIG_DIRS (pkg : XDG) (name : GoString) :
    (WithSuffix pkg name).CONFIG_DIRS
      = pkg.CONFIG_DIRS.map (fun dir => Path.Join dir [name]) := by
  simp [WithSuffix, foldl_append_map]

/-! ## `strings.Split` is the inverse of `strings.Join` -/

theorem strings.Split_ne_nil (s : GoString) (sep : Char) : strings.Split s sep ≠ [] := by
  cases s with
  | nil => simp [strings.Split]
  | cons c cs =>
    unfold strings.Split
    split
    · simp
    · split <;> simp

theorem strings.Join_cons_cons (c : Char) (e : GoString) (es : List GoString)
    (sep : GoString) :
    strings.Join ((c :: e) :: es) sep = c :: strings.Join (e :: es) sep := by
  cases es <;> simp [strings.Join]

/-- Joining the pieces of `Split s sep` with `sep` gives `s` back. -/
theorem strings.Join_Split (s : GoString) (sep : Char) :
    strings.Join (strings.Split s sep) [sep] = s := by
  induction s with
  | nil => simp [strings.Split, strings.Join]
  | cons c cs ih =>
    unfold strings.Split
    by_cases hc : c = sep
    · simp only [hc, if_true]
      cases hsplit : strings.Split cs sep with
      | nil => exact absurd hsplit (strings.Split_ne_nil cs sep)
      | cons piece pieces =>
        rw [hsplit] at ih
        simp [strings.Join, ih]
    · simp only [hc, if_false]
      cases hsplit : strings.Split cs sep with
      | nil => exact absurd hsplit (strings.Split_ne_nil cs sep)
      | cons piece pieces =>
        rw [hsplit] at ih
        simp [strings.Join_cons_cons, ih]

/-- No piece of `Split s sep` contains `sep`. -/
theorem strings.Split_no_sep (s : GoString) (sep : Char) :
    ∀ piece ∈ strings.Split s sep, sep ∉ piece := by
  induction s with
  | nil => simp [strings.Split]
  | cons c cs ih =>
    unfold strings.Split
    by_cases hc : c = sep
    · simp only [hc, if_true]
      intro piece hmem
      rcases List.mem_cons.mp hmem with h | h
      · simp [h]
      · exact ih piece h
    · simp only [hc, if_false]
      cases hsplit : strings.Split cs sep with
      | nil => exact absurd hsplit (strings.Split_ne_nil cs sep)
      | cons first pieces =>
        rw [hsplit] at ih
        intro piece hmem
        rcases List.mem_cons.mp hmem with h | h
        · subst h
          have hfirst := ih first (List.mem_cons_self _ _)
          simp only [List.mem_cons, not_or]
          exact ⟨fun heq => hc heq.symm, hfirst⟩
        · exact ih piece (List.mem_cons_of_mem _ h)

theorem Getenv_unset (env : os.Environ) (key : GoString) (h : env key = none) :
    os.Getenv env key = [] := by
  simp [os.Getenv, h]

theorem Getenv_set (env : os.Environ) (key value : GoString) (h : env key = some value) :
    os.Getenv env key = value := by
  simp [os.Getenv, h]

theorem PathWithDefault_eq (path : GoString) (defaultPath : Path) :
    PathWithDefault path defaultPath
      = if path ≠ [] ∧ filepath.IsAbs path = true then path else defaultPath := by
  unfold PathWithDefault IsValid
  by_cases h1 : path = [] <;> by_cases h2 : filepath.IsAbs path = true <;> simp [h1, h2]

/-! ## `filepath.Clean` and `filepath.Join` -/

/-- An iteration of the loop of `filepath.Clean` reads at least the byte it
looks at. -/
theorem filepath.cleanStep_length (rooted : Bool) (c : Char) (cs : List Char)
    (st : filepath.CleanState) :
    (filepath.cleanStep rooted c cs st).1.length ≤ cs.length := by
  unfold filepath.cleanStep
  split
  · exact Nat.le_refl _
  · rename_i hsep
    split
    · exact Nat.le_refl _
    · split
      · have htail : cs.tail.length ≤ cs.length := by simp
        split
        · exact htail
        · split
          · exact htail
          · exact htail
      · have hdrop : (c :: cs).dropWhile (fun b => !filepath.IsPathSeparator b)
            = cs.dropWhile (fun b => !filepath.IsPathSeparator b) := by
          simp [List.dropWhile_cons, hsep]
        show ((c :: cs).dropWhile (fun b => !filepath.IsPathSeparator b)).length ≤ cs.length
        rw [hdrop]
        exact (List.dropWhile_sublist _).length_le

theorem filepath.cleanLoop_nil (rooted : Bool) (fuel : Nat) (st : filepath.CleanState) :
    filepath.cleanLoop rooted fuel [] st = st := by
  cases fuel <;> rfl

/-- The fuel of `cleanLoop` never runs out before the input does: any two
amounts of fuel that are at least the length of the input give the same
result, so `Clean`, which starts with exactly that length, runs the loop of the
source to its end. -/
theorem filepath.cleanLoop_fuel (rooted : Bool) (fuel fuel' : Nat) (input : List Char)
    (st : filepath.CleanState) (h : input.length ≤ fuel) (h' : input.length ≤ fuel') :
    filepath.cleanLoop rooted fuel input st = filepath.cleanLoop rooted fuel' input st := by
  induction fuel generalizing fuel' input st with
  | zero =>
    have hnil : input = [] := List.length_eq_zero.mp (Nat.le_zero.mp h)
    subst hnil
    rw [filepath.cleanLoop_nil, filepath.cleanLoop_nil]
  | succ fuel ih =>
    cases input with
    | nil => rw [filepath.cleanLoop_nil, filepath.cleanLoop_nil]
    | cons c cs =>
      cases fuel' with
      | zero => simp at h'
      | succ fuel' =>
        have hstep := filepath.cleanStep_length rooted c cs st
        simp only [List.length_cons, Nat.add_le_add_iff_right] at h h'
        show filepath.cleanLoop rooted fuel (filepath.cleanStep rooted c cs st).1
            (filepath.cleanStep rooted c cs st).2
          = filepath.cleanLoop rooted fuel' (filepath.cleanStep rooted c cs st).1
            (filepath.cleanStep rooted c cs st).2
        exact ih fuel' _ _ (Nat.le_trans hstep h) (Nat.le_trans hstep h')

theorem filepath.finish_ne_nil (rout : List Char) :
    (if rout.length = 0 then ['.'] else rout).reverse ≠ [] := by
  by_cases h : rout.length = 0
  · simp [h]
  · rw [if_neg h]
    intro hrev
    apply h
    rw [List.reverse_eq_nil_iff] at hrev
    simp [hrev]

/-- The function `filepath.Clean` never returns the empty string. -/
theorem filepath.Clean_ne_nil (path : GoString) : filepath.Clean path ≠ [] := by
  cases path with
  | nil => simp [filepath.Clean]
  | cons c cs => exact filepath.finish_ne_nil _

/-- The function `filepath.Join` returns the empty string only when every
element is empty. -/
theorem filepath.Join_ne_nil (elem : List GoString) (h : ∃ e ∈ elem, e ≠ []) :
    filepath.Join elem ≠ [] := by
  induction elem with
  | nil => simp at h
  | cons e rest ih =>
    unfold filepath.Join
    by_cases he : e = []
    · simp only [he, ne_eq, not_true_eq_false, if_false]
      apply ih
      rcases h with ⟨x, hx, hne⟩
      rcases List.mem_cons.mp hx with hxe | hxr
      · exact absurd (hxe.trans he) hne
      · exact ⟨x, hxr, hne⟩
    · simp only [ne_eq, he, not_false_eq_true, if_true]
      exact filepath.Clean_ne_nil _

/-! ## The loops of `Paths.Join` and `Paths.Find` -/

theorem Paths.joinLoop_eq (p : Paths) (slot : GoString) (elem out : List GoString) :
    (p.foldl
      (fun (acc : List GoString × List GoString) path =>
        (acc.1.set 0 path, acc.2 ++ [filepath.Join (acc.1.set 0 path)]))
      (slot :: elem, out)).2
      = out ++ p.map (fun path => Path.Join path elem) := by
  induction p generalizing slot out with
  | nil => simp
  | cons path rest ih =>
    simp only [List.foldl_cons, List.set_cons_zero]
    rw [ih]
    simp [Path.Join]

/-- The shared argument buffer of `Paths.Join` makes no difference: the result
is `Path.Join` of each path, in order. -/
theorem Paths.Join_eq_map (p : Paths) (elem : List GoString) :
    Paths.Join p elem = p.map (fun path => Path.Join path elem) := by
  unfold Paths.Join
  have h := Paths.joinLoop_eq p [] elem []
  simpa using h

theorem Paths.findLoop_eq (fs : os.FileSystem) (p : Paths) (elem found : List GoString) :
    p.foldl
      (fun found path =>
        if Path.Find fs path elem ≠ [] then found ++ [Path.Find fs path elem] else found)
      found
      = found ++ (p.map (fun path => Path.Find fs path elem)).filter
          (fun file => file != []) := by
  induction p generalizing found with
  | nil => simp
  | cons path rest ih =>
    simp only [List.foldl_cons, List.map_cons]
    rw [ih]
    by_cases h : Path.Find fs path elem = []
    · simp [h, List.filter_cons]
    · simp [h, List.filter_cons]

theorem Paths.Find_eq (fs : os.FileSystem) (p : Paths) (elem : List GoString) :
    Paths.Find fs p elem
      = (p.map (fun path => Path.Find fs path elem)).filter (fun file => file != []) := by
  unfold Paths.Find
  have h := Paths.findLoop_eq fs p elem []
  simpa using h

theorem Path.Find_cases (fs : os.FileSystem) (p : Path) (elem : List GoString) :
    Path.Find fs p elem = [] ∨ Path.Find fs p elem = Path.Join p elem := by
  unfold Path.Find
  by_cases h : os.IsNotExist (os.Stat fs (Path.Join p elem)) = true
  · left
    simp [h]
  · right
    simp [h]

theorem Paths.Find_sublist_map (fs : os.FileSystem) (p : Paths) (elem : List GoString) :
    List.Sublist
      ((p.map (fun path => Path.Find fs path elem)).filter (fun file => file != []))
      (p.map (fun path => Path.Join path elem)) := by
  induction p with
  | nil => simp
  | cons path rest ih =>
    simp only [List.map_cons]
    rcases Path.Find_cases fs path elem with h | h
    · rw [h]
      simp only [List.filter_cons, bne_self_eq_false, Bool.false_eq_true, if_false]
      exact List.Sublist.cons _ ih
    · rw [h]
      by_cases hne : Path.Join path elem = []
      · simp only [hne, List.filter_cons, bne_self_eq_false, Bool.false_eq_true, if_false]
        exact List.Sublist.cons _ ih
      · have hb : (Path.Join path elem != []) = true := by simpa using hne
        simp only [List.filter_cons, hb, if_true]
        exact List.Sublist.cons₂ _ ih

/-! ## Claims -/

/-- C1: PathsWithDefault returns defaultPaths itself, unfiltered, when no entry
of paths is valid, and otherwise the valid entries of paths in their order,
whatever defaultPaths is. -/
theorem C1_PathsWithDefault (paths : List GoString) (defaultPaths : Paths) :
    ((∀ path ∈ paths, IsValid path = false) →
        PathsWithDefault paths defaultPaths = defaultPaths) ∧
    ((∃ path ∈ paths, IsValid path = true) →
        PathsWithDefault paths defaultPaths = paths.filter IsValid ∧
        ∀ otherDefault : Paths,
          PathsWithDefault paths otherDefault = PathsWithDefault paths defaultPaths) := by
  constructor
  · intro hnone
    have hnil : paths.filter IsValid = [] := by
      rw [List.filter_eq_nil_iff]
      intro path hmem
      simp [hnone path hmem]
    simp [PathsWithDefault_eq, hnil]
  · rintro ⟨path, hmem, hvalid⟩
    have hne : paths.filter IsValid ≠ [] := by
      intro hnil
      rw [List.filter_eq_nil_iff] at hnil
      exact hnil path hmem hvalid
    refine ⟨by simp [PathsWithDefault_eq, hne], ?_⟩
    intro otherDefault
    simp [PathsWithDefault_eq, hne]

/-- Witness of C1: an invalid default list is returned as it is, and one valid
entry is enough for the default list to be left out. -/
theorem C1_PathsWithDefault_witness :
    PathsWithDefault ["".toList, "rel".toList] ["bad".toList, "/d".toList]
      = ["bad".toList, "/d".toList] ∧
    PathsWithDefault ["rel".toList, "/b".toList, "".toList, "/a".toList] ["/d".toList]
      = ["/b".toList, "/a".toList] :=
  ⟨(C1_PathsWithDefault ["".toList, "rel".toList] ["bad".toList, "/d".toList]).1
      (by decide),
    ((C1_PathsWithDefault ["rel".toList, "/b".toList, "".toList, "/a".toList]
      ["/d".toList]).2 ⟨"/b".toList, by decide, by decide⟩).1⟩

/-- C2: PathWithDefault returns path when path is valid and defaultPath itself
otherwise, valid or not. -/
theorem C2_PathWithDefault (path : GoString) (defaultPath : Path) :
    (IsValid path = true → PathWithDefault path defaultPath = path) ∧
    (IsValid path = false → PathWithDefault path defaultPath = defaultPath) := by
  constructor
  · intro h
    simp [PathWithDefault, h]
  · intro h
    simp [PathWithDefault, h]

/-- Witness of C2: a valid path is kept, an invalid one gives way to the
default, here an invalid one. -/
theorem C2_PathWithDefault_witness :
    PathWithDefault "/opt/data".toList "/d".toList = "/opt/data".toList ∧
    PathWithDefault "opt/data".toList "rel".toList = "rel".toList :=
  ⟨(C2_PathWithDefault "/opt/data".toList "/d".toList).1 (by decide),
    (C2_PathWithDefault "opt/data".toList "rel".toList).2 (by decide)⟩

/-- C3: IsValid holds exactly of the non-empty absolute strings, so it fails
on the empty string and on every non-empty string that is not absolute, and
the method of Path gives the same answer. -/
theorem C3_IsValid (s : GoString) :
    (IsValid s = true ↔ s ≠ [] ∧ filepath.IsAbs s = true) ∧
    IsValid [] = false ∧
    (s ≠ [] → filepath.IsAbs s = false → IsValid s = false) ∧
    Path.IsValid s = IsValid s := by
  refine ⟨?_, by decide, ?_, rfl⟩
  · simp [IsValid]
  · intro _ habs
    simp [IsValid, habs]

/-- Witness of C3: a relative name is not valid. -/
theorem C3_IsValid_witness : IsValid "relative/bad".toList = false :=
  (C3_IsValid "relative/bad".toList).2.2.1 (by decide) (by decide)

/-- C4: after init and in every value returned by WithSuffix, DATA is
DATA_HOME followed by DATA_DIRS and CONFIG is CONFIG_HOME followed by
CONFIG_DIRS. -/
theorem C4_combined_lists (env : os.Environ) (pkg : XDG) (name : GoString) :
    (init env).DATA = [(init env).DATA_HOME] ++ (init env).DATA_DIRS ∧
    (init env).CONFIG = [(init env).CONFIG_HOME] ++ (init env).CONFIG_DIRS ∧
    (WithSuffix pkg name).DATA
      = [(WithSuffix pkg name).DATA_HOME] ++ (WithSuffix pkg name).DATA_DIRS ∧
    (WithSuffix pkg name).CONFIG
      = [(WithSuffix pkg name).CONFIG_HOME] ++ (WithSuffix pkg name).CONFIG_DIRS :=
  ⟨rfl, rfl, rfl, rfl⟩

/-- C5: WithSuffix keeps the length and the order of DATA_DIRS and of
CONFIG_DIRS, its entry at each index being the original entry joined with
name, and the three scoped homes are the original homes joined with name. -/
theorem C5_WithSuffix_entries (pkg : XDG) (name : GoString) :
    (WithSuffix pkg name).DATA_DIRS.length = pkg.DATA_DIRS.length ∧
    (∀ i : Nat, (WithSuffix pkg name).DATA_DIRS[i]?
        = (pkg.DATA_DIRS[i]?).map (fun dir => Path.Join dir [name])) ∧
    (WithSuffix pkg name).CONFIG_DIRS.length = pkg.CONFIG_DIRS.length ∧
    (∀ i : Nat, (WithSuffix pkg name).CONFIG_DIRS[i]?
        = (pkg.CONFIG_DIRS[i]?).map (fun dir => Path.Join dir [name])) ∧
    (WithSuffix pkg name).DATA_HOME = Path.Join pkg.DATA_HOME [name] ∧
    (WithSuffix pkg name).CONFIG_HOME = Path.Join pkg.CONFIG_HOME [name] ∧
    (WithSuffix pkg name).CACHE_HOME = Path.Join pkg.CACHE_HOME [name] := by
  refine ⟨?_, ?_, ?_, ?_, rfl, rfl, rfl⟩
  · simp [WithSuffix_DATA_DIRS]
  · intro i
    simp [WithSuffix_DATA_DIRS]
  · simp [WithSuffix_CONFIG_DIRS]
  · intro i
    simp [WithSuffix_CONFIG_DIRS]

/-- C6: DATA_DIRS and CONFIG_DIRS are the valid pieces, in order, of the
variable split on the colon; when there is none, as when the variable is unset
or empty, they are the default list alone. -/
theorem C6_dirs_resolution (env : os.Environ) :
    (((strings.Split (os.Getenv env "XDG_DATA_DIRS".toList) ':').filter IsValid ≠ [] →
        (init env).DATA_DIRS
          = (strings.Split (os.Getenv env "XDG_DATA_DIRS".toList) ':').filter IsValid) ∧
      ((strings.Split (os.Getenv env "XDG_DATA_DIRS".toList) ':').filter IsValid = [] →
        (init env).DATA_DIRS = ["/usr/local/share".toList, "/usr/share".toList]) ∧
      (env "XDG_DATA_DIRS".toList = none ∨ env "XDG_DATA_DIRS".toList = some [] →
        (init env).DATA_DIRS = ["/usr/local/share".toList, "/usr/share".toList])) ∧
    (((strings.Split (os.Getenv env "XDG_CONFIG_DIRS".toList) ':').filter IsValid ≠ [] →
        (init env).CONFIG_DIRS
          = (strings.Split (os.Getenv env "XDG_CONFIG_DIRS".toList) ':').filter IsValid) ∧
      ((strings.Split (os.Getenv env "XDG_CONFIG_DIRS".toList) ':').filter IsValid = [] →
        (init env).CONFIG_DIRS = ["/etc/xdg".toList]) ∧
      (env "XDG_CONFIG_DIRS".toList = none ∨ env "XDG_CONFIG_DIRS".toList = some [] →
        (init env).CONFIG_DIRS = ["/etc/xdg".toList])) := by
  have hdata : (init env).DATA_DIRS
      = PathsWithDefault (strings.Split (os.Getenv env "XDG_DATA_DIRS".toList) ':')
          ["/usr/local/share".toList, "/usr/share".toList] := rfl
  have hconfig : (init env).CONFIG_DIRS
      = PathsWithDefault (strings.Split (os.Getenv env "XDG_CONFIG_DIRS".toList) ':')
          ["/etc/xdg".toList] := rfl
  have hempty : (strings.Split [] ':').filter IsValid = [] := by decide
  refine ⟨⟨?_, ?_, ?_⟩, ?_, ?_, ?_⟩
  · intro h
    rw [hdata, PathsWithDefault_eq, if_neg h]
  · intro h
    rw [hdata, PathsWithDefault_eq, if_pos h]
  · intro h
    have hval : os.Getenv env "XDG_DATA_DIRS".toList = [] := by
      rcases h with h | h
      · exact Getenv_unset env _ h
      · exact Getenv_set env _ _ h
    rw [hdata, PathsWithDefault_eq, hval, if_pos hempty]
  · intro h
    rw [hconfig, PathsWithDefault_eq, if_neg h]
  · intro h
    rw [hconfig, PathsWithDefault_eq, if_pos h]
  · intro h
    have hval : os.Getenv env "XDG_CONFIG_DIRS".toList = [] := by
      rcases h with h | h
      · exact Getenv_unset env _ h
      · exact Getenv_set env _ _ h
    rw [hconfig, PathsWithDefault_eq, hval, if_pos hempty]

/-- Witness of C6: the relative entry of XDG_CONFIG_DIRS is dropped and the
default is not added; an unset XDG_DATA_DIRS gives the default list. -/
theorem C6_dirs_resolution_witness :
    (init (envOf [("XDG_CONFIG_DIRS", "/etc/xdg:/opt/xdg:relative/bad")])).CONFIG_DIRS
      = ["/etc/xdg".toList, "/opt/xdg".toList] ∧
    (init (envOf [("XDG_CONFIG_DIRS", "/etc/xdg:/opt/xdg:relative/bad")])).DATA_DIRS
      = ["/usr/local/share".toList, "/usr/share".toList] :=
  ⟨((C6_dirs_resolution
        (envOf [("XDG_CONFIG_DIRS", "/etc/xdg:/opt/xdg:relative/bad")])).2.1
        (by decide)).trans (by decide),
    (C6_dirs_resolution
        (envOf [("XDG_CONFIG_DIRS", "/etc/xdg:/opt/xdg:relative/bad")])).1.2.2
        (Or.inl (by decide))⟩

/-- C7: each of DATA_HOME, CONFIG_HOME and CACHE_HOME is the value of its
variable when that value is non-empty and absolute, and otherwise the join of
the value of HOME with its fixed relative suffix. -/
theorem C7_home_resolution (env : os.Environ) :
    ((os.Getenv env "XDG_DATA_HOME".toList ≠ [] ∧
        filepath.IsAbs (os.Getenv env "XDG_DATA_HOME".toList) = true →
        (init env).DATA_HOME = os.Getenv env "XDG_DATA_HOME".toList) ∧
      (¬ (os.Getenv env "XDG_DATA_HOME".toList ≠ [] ∧
        filepath.IsAbs (os.Getenv env "XDG_DATA_HOME".toList) = true) →
        (init env).DATA_HOME
          = filepath.Join [os.Getenv env "HOME".toList, ".local".toList, "share".toList])) ∧
    ((os.Getenv env "XDG_CONFIG_HOME".toList ≠ [] ∧
        filepath.IsAbs (os.Getenv env "XDG_CONFIG_HOME".toList) = true →
        (init env).CONFIG_HOME = os.Getenv env "XDG_CONFIG_HOME".toList) ∧
      (¬ (os.Getenv env "XDG_CONFIG_HOME".toList ≠ [] ∧
        filepath.IsAbs (os.Getenv env "XDG_CONFIG_HOME".toList) = true) →
        (init env).CONFIG_HOME
          = filepath.Join [os.Getenv env "HOME".toList, ".config".toList])) ∧
    ((os.Getenv env "XDG_CACHE_HOME".toList ≠ [] ∧
        filepath.IsAbs (os.Getenv env "XDG_CACHE_HOME".toList) = true →
        (init env).CACHE_HOME = os.Getenv env "XDG_CACHE_HOME".toList) ∧
      (¬ (os.Getenv env "XDG_CACHE_HOME".toList ≠ [] ∧
        filepath.IsAbs (os.Getenv env "XDG_CACHE_HOME".toList) = true) →
        (init env).CACHE_HOME
          = filepath.Join [os.Getenv env "HOME".toList, ".cache".toList])) := by
  have hdata : (init env).DATA_HOME
      = PathWithDefault (os.Getenv env "XDG_DATA_HOME".toList)
          (filepath.Join [os.Getenv env "HOME".toList, ".local".toList, "share".toList]) :=
    rfl
  have hconfig : (init env).CONFIG_HOME
      = PathWithDefault (os.Getenv env "XDG_CONFIG_HOME".toList)
          (filepath.Join [os.Getenv env "HOME".toList, ".config".toList]) := rfl
  have hcache : (init env).CACHE_HOME
      = PathWithDefault (os.Getenv env "XDG_CACHE_HOME".toList)
          (filepath.Join [os.Getenv env "HOME".toList, ".cache".toList]) := rfl
  refine ⟨⟨?_, ?_⟩, ⟨?_, ?_⟩, ?_, ?_⟩
  · intro h
    rw [hdata, PathWithDefault_eq, if_pos h]
  · intro h
    rw [hdata, PathWithDefault_eq, if_neg h]
  · intro h
    rw [hconfig, PathWithDefault_eq, if_pos h]
  · intro h
    rw [hconfig, PathWithDefault_eq, if_neg h]
  · intro h
    rw [hcache, PathWithDefault_eq, if_pos h]
  · intro h
    rw [hcache, PathWithDefault_eq, if_neg h]

/-- Witness of C7: with XDG_DATA_HOME unset and HOME=/home/alice the data home
is /home/alice/.local/share; a relative XDG_CONFIG_HOME falls back too, and an
absolute XDG_CACHE_HOME is taken as it is. -/
theorem C7_home_resolution_witness :
    (init (envOf [("HOME", "/home/alice"), ("XDG_CONFIG_HOME", "conf"),
        ("XDG_CACHE_HOME", "/var/cache/alice")])).DATA_HOME
      = "/home/alice/.local/share".toList ∧
    (init (envOf [("HOME", "/home/alice"), ("XDG_CONFIG_HOME", "conf"),
        ("XDG_CACHE_HOME", "/var/cache/alice")])).CONFIG_HOME
      = "/home/alice/.config".toList ∧
    (init (envOf [("HOME", "/home/alice"), ("XDG_CONFIG_HOME", "conf"),
        ("XDG_CACHE_HOME", "/var/cache/alice")])).CACHE_HOME
      = "/var/cache/alice".toList :=
  ⟨((C7_home_resolution (envOf [("HOME", "/home/alice"), ("XDG_CONFIG_HOME", "conf"),
        ("XDG_CACHE_HOME", "/var/cache/alice")])).1.2 (by decide)).trans (by decide),
    ((C7_home_resolution (envOf [("HOME", "/home/alice"), ("XDG_CONFIG_HOME", "conf"),
        ("XDG_CACHE_HOME", "/var/cache/alice")])).2.1.2 (by decide)).trans (by decide),
    ((C7_home_resolution (envOf [("HOME", "/home/alice"), ("XDG_CONFIG_HOME", "conf"),
        ("XDG_CACHE_HOME", "/var/cache/alice")])).2.2.1 (by decide)).trans (by decide)⟩

/-- C8: RUNTIME_DIR is the value of XDG_RUNTIME_DIR when that value is
non-empty and absolute and the empty path otherwise, as when the variable is
unset; it is the same in any two environments that give XDG_RUNTIME_DIR the
same value, whatever HOME is. -/
theorem C8_runtime_dir (env : os.Environ) :
    (os.Getenv env "XDG_RUNTIME_DIR".toList ≠ [] ∧
        filepath.IsAbs (os.Getenv env "XDG_RUNTIME_DIR".toList) = true →
      (init env).RUNTIME_DIR = os.Getenv env "XDG_RUNTIME_DIR".toList) ∧
    (¬ (os.Getenv env "XDG_RUNTIME_DIR".toList ≠ [] ∧
        filepath.IsAbs (os.Getenv env "XDG_RUNTIME_DIR".toList) = true) →
      (init env).RUNTIME_DIR = []) ∧
    (env "XDG_RUNTIME_DIR".toList = none → (init env).RUNTIME_DIR = []) ∧
    (∀ other : os.Environ,
      other "XDG_RUNTIME_DIR".toList = env "XDG_RUNTIME_DIR".toList →
      (init other).RUNTIME_DIR = (init env).RUNTIME_DIR) := by
  have hrun : ∀ e : os.Environ, (init e).RUNTIME_DIR
      = PathWithDefault (os.Getenv e "XDG_RUNTIME_DIR".toList) [] := fun _ => rfl
  refine ⟨?_, ?_, ?_, ?_⟩
  · intro h
    rw [hrun, PathWithDefault_eq, if_pos h]
  · intro h
    rw [hrun, PathWithDefault_eq, if_neg h]
  · intro h
    rw [hrun, PathWithDefault_eq, Getenv_unset env _ h]
    simp
  · intro other h
    have hget : os.Getenv other "XDG_RUNTIME_DIR".toList
        = os.Getenv env "XDG_RUNTIME_DIR".toList := by
      unfold os.Getenv
      rw [h]
    rw [hrun, hrun, hget]

/-- Witness of C8: an absolute XDG_RUNTIME_DIR is taken, a relative one and an
unset one give the empty path though HOME is set, and HOME makes no
difference. -/
theorem C8_runtime_dir_witness :
    (init (envOf [("HOME", "/home/alice"), ("XDG_RUNTIME_DIR", "/run/user/1000")])).RUNTIME_DIR
      = "/run/user/1000".toList ∧
    (init (envOf [("HOME", "/home/alice"), ("XDG_RUNTIME_DIR", "run/user")])).RUNTIME_DIR
      = [] ∧
    (init (envOf [("HOME", "/home/alice")])).RUNTIME_DIR = [] ∧
    (init (envOf [("HOME", "/home/bob"), ("XDG_RUNTIME_DIR", "/run/user/1000")])).RUNTIME_DIR
      = (init (envOf [("HOME", "/home/alice"),
          ("XDG_RUNTIME_DIR", "/run/user/1000")])).RUNTIME_DIR :=
  ⟨((C8_runtime_dir (envOf [("HOME", "/home/alice"),
        ("XDG_RUNTIME_DIR", "/run/user/1000")])).1 (by decide)).trans (by decide),
    (C8_runtime_dir (envOf [("HOME", "/home/alice"),
        ("XDG_RUNTIME_DIR", "run/user")])).2.1 (by decide),
    (C8_runtime_dir (envOf [("HOME", "/home/alice")])).2.2.1 (by decide),
    (C8_runtime_dir (envOf [("HOME", "/home/alice"),
        ("XDG_RUNTIME_DIR", "/run/user/1000")])).2.2.2
      (envOf [("HOME", "/home/bob"), ("XDG_RUNTIME_DIR", "/run/user/1000")]) (by decide)⟩

/-- C9: Paths.Find returns the non-empty results of Path.Find over the paths,
in list order and without a placeholder for a miss, so it is a subsequence of
Paths.Join and holds no empty string; on three paths of which only the second
has settings.json it returns that path joined with settings.json alone. -/
theorem C9_Paths_Find (fs : os.FileSystem) (p : Paths) (elem : List GoString) :
    Paths.Find fs p elem
      = (p.map (fun path => Path.Find fs path elem)).filter (fun file => file != []) ∧
    List.Sublist (Paths.Find fs p elem) (Paths.Join p elem) ∧
    [] ∉ Paths.Find fs p elem ∧
    (∀ a b c : Path, p = [a, b, c] → elem = ["settings.json".toList] →
      os.Stat fs (Path.Join a elem) = some GoError.notExist →
      os.Stat fs (Path.Join b elem) = none →
      os.Stat fs (Path.Join c elem) = some GoError.notExist →
      Paths.Find fs p elem = [Path.Join b elem]) := by
  refine ⟨Paths.Find_eq fs p elem, ?_, ?_, ?_⟩
  · rw [Paths.Find_eq, Paths.Join_eq_map]
    exact Paths.Find_sublist_map fs p elem
  · rw [Paths.Find_eq]
    intro hmem
    have h := (List.mem_filter.mp hmem).2
    simp at h
  · intro a b c hp helem ha hb hc
    have hjoin : Path.Join b elem ≠ [] := by
      apply filepath.Join_ne_nil
      refine ⟨"settings.json".toList, ?_, by decide⟩
      rw [helem]
      simp
    have hfa : Path.Find fs a elem = [] := by simp [Path.Find, ha, os.IsNotExist]
    have hfb : Path.Find fs b elem = Path.Join b elem := by
      simp [Path.Find, hb, os.IsNotExist]
    have hfc : Path.Find fs c elem = [] := by simp [Path.Find, hc, os.IsNotExist]
    rw [Paths.Find_eq, hp]
    simp [hfa, hfb, hfc, List.filter_cons, hjoin]

/-- Witness of C9: of /a, /b and /c only /b holds settings.json, and the
result is the single string /b/settings.json. -/
theorem C9_Paths_Find_witness :
    Paths.Find (fsOf ["/b/settings.json"]) ["/a".toList, "/b".toList, "/c".toList]
        ["settings.json".toList]
      = ["/b/settings.json".toList] :=
  ((C9_Paths_Find (fsOf ["/b/settings.json"]) ["/a".toList, "/b".toList, "/c".toList]
      ["settings.json".toList]).2.2.2
    "/a".toList "/b".toList "/c".toList rfl rfl (by decide) (by decide) (by decide)).trans
    (by decide)

/-- C10, a defect of the code: Path.Find returns the joined path, not the
empty string, when the target does not exist or cannot be checked and os.Stat
fails with an error other than not-exist. Where /b/settings.json is a regular
file, os.Stat of /b/settings.json/x fails with ENOTDIR, the target cannot
exist, and Find returns /b/settings.json/x; where os.Stat of
/secret/settings.json fails with EACCES, Find returns /secret/settings.json.
On an existing target and on a plainly missing one the code does what the
claim says. -/
theorem C10_Path_Find_code_bug :
    os.Stat (fsRegular ["/b/settings.json"])
        (Path.Join "/b".toList ["settings.json".toList, "x".toList])
      = some (GoError.other 20) ∧
    Path.Find (fsRegular ["/b/settings.json"]) "/b".toList
        ["settings.json".toList, "x".toList]
      = "/b/settings.json/x".toList ∧
    Path.Find (fsRegular ["/b/settings.json"]) "/b".toList
        ["settings.json".toList, "x".toList] ≠ [] ∧
    os.Stat (fsDenied "/secret/settings.json")
        (Path.Join "/secret".toList ["settings.json".toList])
      = some (GoError.other 13) ∧
    Path.Find (fsDenied "/secret/settings.json") "/secret".toList ["settings.json".toList]
      = "/secret/settings.json".toList ∧
    Path.Find (fsRegular ["/b/settings.json"]) "/b".toList ["settings.json".toList]
      = "/b/settings.json".toList ∧
    Path.Find (fsRegular ["/b/settings.json"]) "/a".toList ["settings.json".toList] = [] := by
  decide

/-! ## A rooted path stays rooted through `filepath.Clean` -/

/-- Backtracking over a buffer that holds more than its first byte leaves the
first byte in place. -/
theorem filepath.backtrack_root (x : Char) (pre : List Char) (h : pre ≠ []) :
    ∃ pre', filepath.backtrack 1 (pre ++ [x]) = pre' ++ [x] := by
  induction pre with
  | nil => exact absurd rfl h
  | cons c rest ih =>
    show ∃ pre', filepath.backtrack 1 (c :: (rest ++ [x])) = pre' ++ [x]
    unfold filepath.backtrack
    split
    · rename_i hcond
      have hrest : rest ≠ [] := by
        intro hnil
        subst hnil
        simp at hcond
      exact ih hrest
    · exact ⟨rest, rfl⟩

/-- One iteration of the loop of `Clean` on a rooted path keeps `dotdot` at 1
and the leading separator in the output. -/
theorem filepath.cleanStep_rooted (c : Char) (cs : List Char) (st : filepath.CleanState)
    (hdot : st.dotdot = 1) (hout : ∃ pre, st.rout = pre ++ [filepath.Separator]) :
    (filepath.cleanStep true c cs st).2.dotdot = 1 ∧
    ∃ pre, (filepath.cleanStep true c cs st).2.rout = pre ++ [filepath.Separator] := by
  obtain ⟨pre, hpre⟩ := hout
  unfold filepath.cleanStep
  split
  · exact ⟨hdot, pre, hpre⟩
  · split
    · exact ⟨hdot, pre, hpre⟩
    · split
      · split
        · rename_i hlt
          refine ⟨hdot, ?_⟩
          have hne : pre ≠ [] := by
            intro hnil
            rw [hpre, hnil, hdot] at hlt
            simp at hlt
          show ∃ pre', filepath.backtrack st.dotdot st.rout = pre' ++ [filepath.Separator]
          rw [hdot, hpre]
          exact filepath.backtrack_root _ pre hne
        · split
          · rename_i hroot
            simp at hroot
          · exact ⟨hdot, pre, hpre⟩
      · refine ⟨hdot, ?_⟩
        show ∃ pre', ((c :: cs).takeWhile (fun b => !filepath.IsPathSeparator b)).reverse
            ++ (if ((true && st.rout.length != 1) || (!true && st.rout.length != 0)) = true
                then filepath.Separator :: st.rout else st.rout)
            = pre' ++ [filepath.Separator]
        split
        · refine ⟨((c :: cs).takeWhile (fun b => !filepath.IsPathSeparator b)).reverse
            ++ filepath.Separator :: pre, ?_⟩
          rw [hpre, List.append_assoc, List.cons_append]
        · refine ⟨((c :: cs).takeWhile (fun b => !filepath.IsPathSeparator b)).reverse
            ++ pre, ?_⟩
          rw [hpre, List.append_assoc]

/-- The loop of `Clean` on a rooted path keeps the leading separator in the
output. -/
theorem filepath.cleanLoop_rooted (fuel : Nat) (input : List Char)
    (st : filepath.CleanState)
    (hdot : st.dotdot = 1) (hout : ∃ pre, st.rout = pre ++ [filepath.Separator]) :
    ∃ pre, (filepath.cleanLoop true fuel input st).rout = pre ++ [filepath.Separator] := by
  induction fuel generalizing input st with
  | zero =>
    cases input <;> exact hout
  | succ fuel ih =>
    cases input with
    | nil => exact hout
    | cons c cs =>
      have hstep := filepath.cleanStep_rooted c cs st hdot hout
      exact ih _ _ hstep.1 hstep.2

/-- The function `filepath.Clean` maps a path that starts with the separator
to a path that starts with the separator. -/
theorem filepath.Clean_rooted (rest : List Char) :
    ∃ t, filepath.Clean ('/' :: rest) = '/' :: t := by
  obtain ⟨pre, hpre⟩ := filepath.cleanLoop_rooted rest.length rest
    { rout := [filepath.Separator], dotdot := 1 } rfl ⟨[], rfl⟩
  refine ⟨pre.reverse, ?_⟩
  show (if (filepath.cleanLoop true rest.length rest
        { rout := [filepath.Separator], dotdot := 1 }).rout.length = 0 then ['.']
      else (filepath.cleanLoop true rest.length rest
        { rout := [filepath.Separator], dotdot := 1 }).rout).reverse = '/' :: pre.reverse
  rw [hpre]
  simp [filepath.Separator]

theorem IsValid_iff (p : GoString) : IsValid p = true ↔ ∃ t, p = '/' :: t := by
  cases p with
  | nil => simp [IsValid]
  | cons c t =>
    simp [IsValid, filepath.IsAbs]

/-- Joining anything onto a valid path gives a valid path. -/
theorem filepath.Join_valid (p : GoString) (elem : List GoString) (h : IsValid p = true) :
    IsValid (filepath.Join (p :: elem)) = true := by
  obtain ⟨t, ht⟩ := (IsValid_iff p).mp h
  subst ht
  have hjoin : filepath.Join (('/' :: t) :: elem)
      = filepath.Clean (strings.Join (('/' :: t) :: elem) [filepath.Separator]) := by
    simp [filepath.Join]
  rw [hjoin, strings.Join_cons_cons]
  obtain ⟨u, hu⟩ := filepath.Clean_rooted (strings.Join (t :: elem) [filepath.Separator])
  rw [hu]
  exact (IsValid_iff _).mpr ⟨u, rfl⟩

theorem Path.Join_keeps_valid (p : Path) (elem : List GoString) (h : IsValid p = true) :
    IsValid (Path.Join p elem) = true :=
  filepath.Join_valid p elem h

/-! ## `filepath.Clean` on a single plain element -/

theorem filepath.not_sep_of_not_mem (name : List Char) (h : '/' ∉ name) :
    ∀ b ∈ name, (!filepath.IsPathSeparator b) = true := by
  intro b hb
  have hne : b ≠ '/' := fun heq => h (heq ▸ hb)
  simp [filepath.IsPathSeparator, filepath.Separator, hne]

/-- On an element that is neither `.` nor `..` and holds no separator, the
first iteration of the loop of `Clean` copies the whole element. -/
theorem filepath.cleanStep_plain (c : Char) (cs : List Char)
    (hsep : '/' ∉ c :: cs) (hdot : c :: cs ≠ ['.']) (hdotdot : c :: cs ≠ ['.', '.']) :
    filepath.cleanStep false c cs { rout := [], dotdot := 0 }
      = ([], { rout := (c :: cs).reverse, dotdot := 0 }) := by
  have hall := filepath.not_sep_of_not_mem (c :: cs) hsep
  have hc : ¬ filepath.IsPathSeparator c = true := by
    have := hall c (List.mem_cons_self _ _)
    simpa using this
  have h2 : ¬ (c = '.' ∧ (cs = [] ∨ (cs.head?.map filepath.IsPathSeparator) = some true)) := by
    rintro ⟨hcd, hcs | hhead⟩
    · exact hdot (by rw [hcd, hcs])
    · cases cs with
      | nil => simp at hhead
      | cons d ds =>
        have := hall d (by simp)
        simp at hhead
        simp [hhead] at this
  have h3 : ¬ (c = '.' ∧ cs.head? = some '.' ∧
      (cs.tail = [] ∨ (cs.tail.head?.map filepath.IsPathSeparator) = some true)) := by
    rintro ⟨hcd, hd, htail | hhead⟩
    · cases cs with
      | nil => simp at hd
      | cons d ds =>
        simp at hd htail
        exact hdotdot (by rw [hcd, hd, htail])
    · cases cs with
      | nil => simp at hd
      | cons d ds =>
        cases ds with
        | nil => simp at hhead
        | cons e es =>
          have := hall e (by simp)
          simp at hhead
          simp [hhead] at this
  have htake : (c :: cs).takeWhile (fun b => !filepath.IsPathSeparator b) = c :: cs :=
    List.takeWhile_eq_self_iff.mpr hall
  have hdrop : (c :: cs).dropWhile (fun b => !filepath.IsPathSeparator b) = [] :=
    List.dropWhile_eq_nil_iff.mpr hall
  unfold filepath.cleanStep
  rw [if_neg hc, if_neg h2, if_neg h3]
  simp only [htake, hdrop]
  simp

/-- The function `filepath.Clean` leaves a single plain element as it is. -/
theorem filepath.Clean_plain (name : GoString) (hne : name ≠ []) (hsep : '/' ∉ name)
    (hdot : name ≠ ['.']) (hdotdot : name ≠ ['.', '.']) :
    filepath.Clean name = name := by
  cases name with
  | nil => exact absurd rfl hne
  | cons c cs =>
    have hc : filepath.IsPathSeparator c = false := by
      have := filepath.not_sep_of_not_mem (c :: cs) hsep c (List.mem_cons_self _ _)
      simpa using this
    have hloop : filepath.cleanLoop false (c :: cs).length (c :: cs)
        { rout := [], dotdot := 0 }
        = { rout := (c :: cs).reverse, dotdot := 0 } := by
      show filepath.cleanLoop false cs.length
          (filepath.cleanStep false c cs { rout := [], dotdot := 0 }).1
          (filepath.cleanStep false c cs { rout := [], dotdot := 0 }).2 = _
      rw [filepath.cleanStep_plain c cs hsep hdot hdotdot, filepath.cleanLoop_nil]
    unfold filepath.Clean
    simp only [hc, Bool.false_eq_true, if_false, hloop, filepath.FromSlash]
    simp

/-! ## The loop of `Paths.Glob` -/

theorem Paths.globLoop_ok (glob : GlobFn) (pattern : GoString) (p : Paths)
    (found : List GoString) (hall : ∀ q ∈ p, (Path.Glob glob q pattern).2 = none) :
    Paths.globLoop glob pattern p found
      = (found ++ (p.map (fun q => (Path.Glob glob q pattern).1)).flatten, none) := by
  induction p generalizing found with
  | nil => simp [Paths.globLoop]
  | cons q rest ih =>
    have hq := hall q (List.mem_cons_self _ _)
    have hrest : ∀ r ∈ rest, (Path.Glob glob r pattern).2 = none :=
      fun r hr => hall r (List.mem_cons_of_mem _ hr)
    cases hglob : Path.Glob glob q pattern with
    | mk found' err =>
      rw [hglob] at hq
      simp only at hq
      subst hq
      unfold Paths.globLoop
      rw [hglob]
      simp only
      rw [ih _ hrest]
      simp [hglob]

theorem Paths.globLoop_fail (glob : GlobFn) (pattern : GoString) (pre : Paths) (bad : Path)
    (post : Paths) (found : List GoString) (err : GoError)
    (hpre : ∀ q ∈ pre, (Path.Glob glob q pattern).2 = none)
    (hbad : (Path.Glob glob bad pattern).2 = some err) :
    Paths.globLoop glob pattern (pre ++ bad :: post) found = ([], some err) := by
  induction pre generalizing found with
  | nil =>
    cases hglob : Path.Glob glob bad pattern with
    | mk found' err' =>
      rw [hglob] at hbad
      simp only at hbad
      subst hbad
      show Paths.globLoop glob pattern (bad :: post) found = ([], some err)
      unfold Paths.globLoop
      rw [hglob]
  | cons q rest ih =>
    have hq := hpre q (List.mem_cons_self _ _)
    have hrest : ∀ r ∈ rest, (Path.Glob glob r pattern).2 = none :=
      fun r hr => hpre r (List.mem_cons_of_mem _ hr)
    cases hglob : Path.Glob glob q pattern with
    | mk found' err' =>
      rw [hglob] at hq
      simp only at hq
      subst hq
      show Paths.globLoop glob pattern (q :: (rest ++ bad :: post)) found = ([], some err)
      unfold Paths.globLoop
      rw [hglob]
      exact ih _ hrest

/-- A list with a path on which `Path.Glob` fails has a first such path. -/
theorem Paths.exists_first_failure (glob : GlobFn) (pattern : GoString) (p : Paths)
    (h : ∃ q ∈ p, (Path.Glob glob q pattern).2 ≠ none) :
    ∃ (pre : Paths) (bad : Path) (post : Paths) (err : GoError),
      p = pre ++ bad :: post ∧
      (∀ q ∈ pre, (Path.Glob glob q pattern).2 = none) ∧
      (Path.Glob glob bad pattern).2 = some err := by
  induction p with
  | nil => simp at h
  | cons q rest ih =>
    cases herr : (Path.Glob glob q pattern).2 with
    | some err => exact ⟨[], q, rest, err, rfl, by simp, herr⟩
    | none =>
      have hrest : ∃ r ∈ rest, (Path.Glob glob r pattern).2 ≠ none := by
        obtain ⟨r, hr, hne⟩ := h
        rcases List.mem_cons.mp hr with hrq | hrr
        · rw [hrq] at hne
          exact absurd herr hne
        · exact ⟨r, hrr, hne⟩
      obtain ⟨pre, bad, post, err, hp, hpre, hbad⟩ := ih hrest
      refine ⟨q :: pre, bad, post, err, by rw [hp]; rfl, ?_, hbad⟩
      intro r hr
      rcases List.mem_cons.mp hr with hrq | hrr
      · rw [hrq]
        exact herr
      · exact hpre r hrr

/-! ## Validity through the defaults -/

theorem PathWithDefault_valid_of_either (path : GoString) (defaultPath : Path)
    (h : IsValid path = true ∨ IsValid defaultPath = true) :
    IsValid (PathWithDefault path defaultPath) = true := by
  unfold PathWithDefault
  by_cases hp : IsValid path = true
  · rw [if_pos hp]
    exact hp
  · rw [if_neg hp]
    exact h.resolve_left hp

theorem PathsWithDefault_valid (paths : List GoString) (defaultPaths : Paths)
    (h : ∀ d ∈ defaultPaths, IsValid d = true) :
    ∀ d ∈ PathsWithDefault paths defaultPaths, IsValid d = true := by
  rw [PathsWithDefault_eq]
  by_cases hnil : paths.filter IsValid = []
  · rw [if_pos hnil]
    exact h
  · rw [if_neg hnil]
    intro d hd
    exact (List.mem_filter.mp hd).2

theorem PathsWithDefault_ne_nil (paths : List GoString) (defaultPaths : Paths)
    (h : defaultPaths ≠ []) :
    PathsWithDefault paths defaultPaths ≠ [] := by
  rw [PathsWithDefault_eq]
  by_cases hnil : paths.filter IsValid = []
  · rw [if_pos hnil]
    exact h
  · rw [if_neg hnil]
    exact hnil

theorem init_DATA_DIRS_valid (env : os.Environ) :
    (init env).DATA_DIRS ≠ [] ∧ ∀ d ∈ (init env).DATA_DIRS, IsValid d = true :=
  ⟨PathsWithDefault_ne_nil _ _ (by decide), PathsWithDefault_valid _ _ (by decide)⟩

theorem init_CONFIG_DIRS_valid (env : os.Environ) :
    (init env).CONFIG_DIRS ≠ [] ∧ ∀ d ∈ (init env).CONFIG_DIRS, IsValid d = true :=
  ⟨PathsWithDefault_ne_nil _ _ (by decide), PathsWithDefault_valid _ _ (by decide)⟩

/-! ## The memory of a call of `WithSuffix` -/

theorem WithSuffix.data_loop (name : GoString) (dirs : Paths) (m : Memory) :
    dirs.foldl
      (fun m dir => { m with data_dirs := m.data_dirs ++ [Path.Join dir [name]] }) m
      = { m with data_dirs := m.data_dirs ++ dirs.map (fun dir => Path.Join dir [name]) } := by
  induction dirs generalizing m with
  | nil => simp
  | cons dir rest ih =>
    rw [List.foldl_cons, ih]
    simp

theorem WithSuffix.config_loop (name : GoString) (dirs : Paths) (m : Memory) :
    dirs.foldl
      (fun m dir => { m with config_dirs := m.config_dirs ++ [Path.Join dir [name]] }) m
      = { m with
          config_dirs := m.config_dirs ++ dirs.map (fun dir => Path.Join dir [name]) } := by
  induction dirs generalizing m with
  | nil => simp
  | cons dir rest ih =>
    rw [List.foldl_cons, ih]
    simp

/-- The statements of `WithSuffix` leave the package-level variables as they
are and set the local variables to the joined paths. -/
theorem WithSuffix.body_eq (name : GoString) (m : Memory) :
    WithSuffix.body name m
      = { pkg := m.pkg
          data_home := Path.Join m.pkg.DATA_HOME [name]
          data_dirs := m.pkg.DATA_DIRS.map (fun dir => Path.Join dir [name])
          config_home := Path.Join m.pkg.CONFIG_HOME [name]
          config_dirs := m.pkg.CONFIG_DIRS.map (fun dir => Path.Join dir [name])
          cache_home := Path.Join m.pkg.CACHE_HOME [name]
          runtime_dir := Path.Join m.pkg.RUNTIME_DIR [name] } := by
  unfold WithSuffix.body
  simp only [WithSuffix.data_loop, WithSuffix.config_loop, List.nil_append]

theorem WithSuffix_eq (pkg : XDG) (name : GoString) :
    WithSuffix pkg name
      = { DATA_HOME := Path.Join pkg.DATA_HOME [name]
          DATA_DIRS := pkg.DATA_DIRS.map (fun dir => Path.Join dir [name])
          DATA := [Path.Join pkg.DATA_HOME [name]]
            ++ pkg.DATA_DIRS.map (fun dir => Path.Join dir [name])
          CONFIG_HOME := Path.Join pkg.CONFIG_HOME [name]
          CONFIG_DIRS := pkg.CONFIG_DIRS.map (fun dir => Path.Join dir [name])
          CONFIG := [Path.Join pkg.CONFIG_HOME [name]]
            ++ pkg.CONFIG_DIRS.map (fun dir => Path.Join dir [name])
          CACHE_HOME := Path.Join pkg.CACHE_HOME [name]
          RUNTIME_DIR := Path.Join pkg.RUNTIME_DIR [name] } := by
  simp [WithSuffix, foldl_append_map]

/-! ## Claims, continued -/

/-- C11: when Path.Glob fails for some path of the list, Paths.Glob returns
the error of the first such path in list order and no matches at all, and it
does so whatever paths follow the failing one and whatever Path.Glob would
return for them. -/
theorem C11_Paths_Glob_fail_fast (glob : GlobFn) (p : Paths) (pattern : GoString)
    (h : ∃ q ∈ p, (Path.Glob glob q pattern).2 ≠ none) :
    ∃ (pre : Paths) (bad : Path) (post : Paths) (err : GoError),
      p = pre ++ bad :: post ∧
      (∀ q ∈ pre, (Path.Glob glob q pattern).2 = none) ∧
      (Path.Glob glob bad pattern).2 = some err ∧
      Paths.Glob glob p pattern = ([], some err) ∧
      ∀ (glob' : GlobFn) (post' : Paths),
        (∀ q ∈ pre ++ [bad], Path.Glob glob' q pattern = Path.Glob glob q pattern) →
        Paths.Glob glob' (pre ++ bad :: post') pattern = ([], some err) := by
  obtain ⟨pre, bad, post, err, hp, hpre, hbad⟩ :=
    Paths.exists_first_failure glob pattern p h
  refine ⟨pre, bad, post, err, hp, hpre, hbad, ?_, ?_⟩
  · rw [hp]
    exact Paths.globLoop_fail glob pattern pre bad post [] err hpre hbad
  · intro glob' post' hagree
    apply Paths.globLoop_fail glob' pattern pre bad post' [] err
    · intro q hq
      rw [hagree q (List.mem_append_left _ hq)]
      exact hpre q hq
    · rw [hagree bad (by simp)]
      exact hbad

/-- Witness of C11: the second of three paths makes the pattern malformed;
the matches found under the first path are not returned. -/
theorem C11_Paths_Glob_fail_fast_witness :
    (∃ err : GoError,
      Paths.Glob globDemo ["/a".toList, "/opt/[app".toList, "/c".toList] "*.txt".toList
        = ([], some err)) ∧
    Paths.Glob globDemo ["/a".toList, "/opt/[app".toList, "/c".toList] "*.txt".toList
      = ([], some (GoError.other 0)) ∧
    (Path.Glob globDemo "/a".toList "*.txt".toList).1 = ["/a/x.txt".toList, "/a/y.txt".toList] :=
  ⟨(C11_Paths_Glob_fail_fast globDemo ["/a".toList, "/opt/[app".toList, "/c".toList]
      "*.txt".toList ⟨"/opt/[app".toList, by decide, by decide⟩).elim
      (fun _ h1 => h1.elim (fun _ h2 => h2.elim (fun _ h3 => h3.elim
        (fun err h4 => ⟨err, h4.2.2.2.1⟩)))),
    by decide, by decide⟩

/-- C12: when Path.Glob succeeds for every path of the list, Paths.Glob
returns no error and the matches of the paths concatenated in list order; when
no path has a match, that is the empty list, still without an error. -/
theorem C12_Paths_Glob_success (glob : GlobFn) (p : Paths) (pattern : GoString)
    (hall : ∀ q ∈ p, (Path.Glob glob q pattern).2 = none) :
    Paths.Glob glob p pattern
      = ((p.map (fun q => (Path.Glob glob q pattern).1)).flatten, none) ∧
    ((∀ q ∈ p, (Path.Glob glob q pattern).1 = []) →
      Paths.Glob glob p pattern = ([], none)) := by
  have hres : Paths.Glob glob p pattern
      = ((p.map (fun q => (Path.Glob glob q pattern).1)).flatten, none) := by
    unfold Paths.Glob
    rw [Paths.globLoop_ok glob pattern p [] hall]
    simp
  refine ⟨hres, ?_⟩
  intro hnone
  rw [hres]
  have hflat : (p.map (fun q => (Path.Glob glob q pattern).1)).flatten = [] := by
    rw [List.flatten_eq_nil_iff]
    intro l hl
    obtain ⟨q, hq, hql⟩ := List.mem_map.mp hl
    rw [← hql]
    exact hnone q hq
  rw [hflat]

/-- Witness of C12: the matches under /a come before the match under /c, and
two paths without a match give the empty list and no error. -/
theorem C12_Paths_Glob_success_witness :
    Paths.Glob globDemo ["/a".toList, "/b".toList, "/c".toList] "*.txt".toList
      = (["/a/x.txt".toList, "/a/y.txt".toList, "/c/z.txt".toList], none) ∧
    Paths.Glob globDemo ["/b".toList, "/d".toList] "*.txt".toList = ([], none) :=
  ⟨((C12_Paths_Glob_success globDemo ["/a".toList, "/b".toList, "/c".toList]
      "*.txt".toList (by decide)).1).trans (by decide),
    (C12_Paths_Glob_success globDemo ["/b".toList, "/d".toList] "*.txt".toList
      (by decide)).2 (by decide)⟩

/-- C13: Paths.Join returns one string for each path of the list, the string
at each index being Path.Join of the path at that index, although the loop
keeps one argument buffer for all paths; it is a total function. -/
theorem C13_Paths_Join (p : Paths) (elem : List GoString) :
    (Paths.Join p elem).length = p.length ∧
    (∀ i : Nat, (Paths.Join p elem)[i]? = (p[i]?).map (fun path => Path.Join path elem)) ∧
    Paths.Join p elem = p.map (fun path => Path.Join path elem) := by
  refine ⟨?_, ?_, Paths.Join_eq_map p elem⟩
  · rw [Paths.Join_eq_map, List.length_map]
  · intro i
    rw [Paths.Join_eq_map, List.getElem?_map]

/-- C14, as amended: in every environment every entry of DATA_DIRS and of
CONFIG_DIRS is a valid path; DATA_HOME and with it every entry of DATA are
valid whenever XDG_DATA_HOME or HOME is a non-empty absolute path, and
likewise CONFIG_HOME with CONFIG, and CACHE_HOME. -/
theorem C14_resolved_paths_valid (env : os.Environ) :
    (IsValid (os.Getenv env "XDG_DATA_HOME".toList) = true ∨
        IsValid (os.Getenv env "HOME".toList) = true →
      IsValid (init env).DATA_HOME = true ∧ ∀ d ∈ (init env).DATA, IsValid d = true) ∧
    (IsValid (os.Getenv env "XDG_CONFIG_HOME".toList) = true ∨
        IsValid (os.Getenv env "HOME".toList) = true →
      IsValid (init env).CONFIG_HOME = true ∧ ∀ d ∈ (init env).CONFIG, IsValid d = true) ∧
    (IsValid (os.Getenv env "XDG_CACHE_HOME".toList) = true ∨
        IsValid (os.Getenv env "HOME".toList) = true →
      IsValid (init env).CACHE_HOME = true) ∧
    (∀ d ∈ (init env).DATA_DIRS, IsValid d = true) ∧
    (∀ d ∈ (init env).CONFIG_DIRS, IsValid d = true) := by
  refine ⟨?_, ?_, ?_, (init_DATA_DIRS_valid env).2, (init_CONFIG_DIRS_valid env).2⟩
  · intro h
    have hdata : IsValid (init env).DATA_HOME = true :=
      PathWithDefault_valid_of_either _ _ (h.imp id (filepath.Join_valid _ _))
    refine ⟨hdata, ?_⟩
    intro d hd
    have hmem : d ∈ [(init env).DATA_HOME] ++ (init env).DATA_DIRS := hd
    rcases List.mem_append.mp hmem with h | h
    · rw [List.mem_singleton.mp h]
      exact hdata
    · exact (init_DATA_DIRS_valid env).2 d h
  · intro h
    have hconfig : IsValid (init env).CONFIG_HOME = true :=
      PathWithDefault_valid_of_either _ _ (h.imp id (filepath.Join_valid _ _))
    refine ⟨hconfig, ?_⟩
    intro d hd
    have hmem : d ∈ [(init env).CONFIG_HOME] ++ (init env).CONFIG_DIRS := hd
    rcases List.mem_append.mp hmem with h | h
    · rw [List.mem_singleton.mp h]
      exact hconfig
    · exact (init_CONFIG_DIRS_valid env).2 d h
  · intro h
    exact PathWithDefault_valid_of_either _ _ (h.imp id (filepath.Join_valid _ _))

/-- Witness of C14: with HOME=/home/alice and a relative XDG_DATA_HOME the data
home and the combined data list hold valid paths only, and so does the cache
home when HOME is unset and XDG_CACHE_HOME is absolute. -/
theorem C14_resolved_paths_valid_witness :
    IsValid (init (envOf [("HOME", "/home/alice"), ("XDG_DATA_HOME", "data")])).DATA_HOME
      = true ∧
    (∀ d ∈ (init (envOf [("HOME", "/home/alice"), ("XDG_DATA_HOME", "data")])).DATA,
      IsValid d = true) ∧
    IsValid (init (envOf [("XDG_CACHE_HOME", "/var/cache/alice")])).CACHE_HOME = true :=
  ⟨((C14_resolved_paths_valid
      (envOf [("HOME", "/home/alice"), ("XDG_DATA_HOME", "data")])).1
      (Or.inr (by decide))).1,
    ((C14_resolved_paths_valid
      (envOf [("HOME", "/home/alice"), ("XDG_DATA_HOME", "data")])).1
      (Or.inr (by decide))).2,
    (C14_resolved_paths_valid (envOf [("XDG_CACHE_HOME", "/var/cache/alice")])).2.2.1
      (Or.inl (by decide))⟩

/-- C14 as stated fails: in the environment with no variable set, HOME
included, DATA_HOME is the relative path .local/share, which is not valid, and
it is the first entry of DATA. -/
theorem C14_resolved_paths_valid_counterexample :
    (init (envOf [])).DATA_HOME = ".local/share".toList ∧
    IsValid (init (envOf [])).DATA_HOME = false ∧
    ¬ (∀ d ∈ (init (envOf [])).DATA, IsValid d = true) := by
  decide

/-- C15: when RUNTIME_DIR is empty and name is a single plain path element,
WithSuffix returns name itself as RUNTIME_DIR, and that is not a valid path. -/
theorem C15_scoped_unset_runtime_dir (pkg : XDG) (name : GoString)
    (hrun : pkg.RUNTIME_DIR = []) (hne : name ≠ []) (hsep : '/' ∉ name)
    (hdot : name ≠ ".".toList) (hdotdot : name ≠ "..".toList) :
    (WithSuffix pkg name).RUNTIME_DIR = name ∧
    IsValid (WithSuffix pkg name).RUNTIME_DIR = false := by
  have hjoin : (WithSuffix pkg name).RUNTIME_DIR = name := by
    show filepath.Join ([pkg.RUNTIME_DIR] ++ [name]) = name
    rw [hrun]
    have h1 : filepath.Join ([[]] ++ [name])
        = filepath.Clean (strings.Join [name] [filepath.Separator]) := by
      simp [filepath.Join, hne]
    rw [h1]
    exact filepath.Clean_plain name hne hsep hdot hdotdot
  refine ⟨hjoin, ?_⟩
  rw [hjoin]
  cases hvalid : IsValid name with
  | false => rfl
  | true =>
    obtain ⟨t, ht⟩ := (IsValid_iff name).mp hvalid
    exact absurd (ht ▸ List.mem_cons_self _ _) hsep

/-- Witness of C15: with no variable set, RUNTIME_DIR is empty and the scoped
RUNTIME_DIR for myapp is the relative name myapp. -/
theorem C15_scoped_unset_runtime_dir_witness :
    (WithSuffix (init (envOf [])) "myapp".toList).RUNTIME_DIR = "myapp".toList ∧
    IsValid (WithSuffix (init (envOf [])) "myapp".toList).RUNTIME_DIR = false :=
  C15_scoped_unset_runtime_dir (init (envOf [])) "myapp".toList
    (by decide) (by decide) (by decide) (by decide) (by decide)

/-- C16: a call of WithSuffix leaves the package-level variables, all eight of
them, as they were, and the struct it returns is determined by those variables
and the name: it is the value of WithSuffix on them, the same at every call. -/
theorem C16_WithSuffix_frame (pkg : XDG) (name : GoString) :
    (WithSuffix.call name pkg).2 = pkg ∧
    (WithSuffix.call name pkg).1 = WithSuffix pkg name ∧
    (WithSuffix.call name (WithSuffix.call name pkg).2).1 = (WithSuffix.call name pkg).1 := by
  have hframe : (WithSuffix.call name pkg).2 = pkg := by
    unfold WithSuffix.call
    simp only [WithSuffix.body_eq]
  have hvalue : ∀ state : XDG, (WithSuffix.call name state).1 = WithSuffix state name := by
    intro state
    unfold WithSuffix.call
    simp only [WithSuffix.body_eq]
    rw [WithSuffix_eq]
  refine ⟨hframe, hvalue pkg, ?_⟩
  rw [hframe]

/-- C17: in every environment DATA_DIRS and CONFIG_DIRS have at least one
entry and valid entries only, so DATA and CONFIG have at least two entries;
and PathsWithDefault returns a non-empty list of valid paths whenever the
default list is one. -/
theorem C17_search_lists (env : os.Environ) :
    (1 ≤ (init env).DATA_DIRS.length ∧ ∀ d ∈ (init env).DATA_DIRS, IsValid d = true) ∧
    (1 ≤ (init env).CONFIG_DIRS.length ∧ ∀ d ∈ (init env).CONFIG_DIRS, IsValid d = true) ∧
    2 ≤ (init env).DATA.length ∧
    2 ≤ (init env).CONFIG.length ∧
    (∀ (paths : List GoString) (defaultPaths : Paths),
      defaultPaths ≠ [] → (∀ d ∈ defaultPaths, IsValid d = true) →
      PathsWithDefault paths defaultPaths ≠ [] ∧
      ∀ d ∈ PathsWithDefault paths defaultPaths, IsValid d = true) := by
  have hdata : 1 ≤ (init env).DATA_DIRS.length :=
    List.length_pos.mpr (init_DATA_DIRS_valid env).1
  have hconfig : 1 ≤ (init env).CONFIG_DIRS.length :=
    List.length_pos.mpr (init_CONFIG_DIRS_valid env).1
  refine ⟨⟨hdata, (init_DATA_DIRS_valid env).2⟩, ⟨hconfig, (init_CONFIG_DIRS_valid env).2⟩,
    ?_, ?_, ?_⟩
  · have hlen : (init env).DATA.length = 1 + (init env).DATA_DIRS.length := by
      show ([(init env).DATA_HOME] ++ (init env).DATA_DIRS).length = _
      simp [Nat.add_comm]
    omega
  · have hlen : (init env).CONFIG.length = 1 + (init env).CONFIG_DIRS.length := by
      show ([(init env).CONFIG_HOME] ++ (init env).CONFIG_DIRS).length = _
      simp [Nat.add_comm]
    omega
  · intro paths defaultPaths hne hvalid
    exact ⟨PathsWithDefault_ne_nil paths defaultPaths hne,
      PathsWithDefault_valid paths defaultPaths hvalid⟩

/-- Witness of C17: a list of invalid entries falls back to the non-empty valid
default list. -/
theorem C17_search_lists_witness :
    PathsWithDefault ["".toList, "rel".toList] ["/etc/xdg".toList] ≠ [] ∧
    ∀ d ∈ PathsWithDefault ["".toList, "rel".toList] ["/etc/xdg".toList], IsValid d = true :=
  (C17_search_lists (envOf [])).2.2.2.2 ["".toList, "rel".toList] ["/etc/xdg".toList]
    (by decide) (by decide)

/-- C18: for the state that init leaves, and for any state whose combined
lists are the home followed by the dirs, the DATA returned by WithSuffix is
Paths.Join of name over the original DATA, and likewise for CONFIG. -/
theorem C18_scoping_commutes (env : os.Environ) (pkg : XDG) (name : GoString) :
    (WithSuffix (init env) name).DATA = Paths.Join (init env).DATA [name] ∧
    (WithSuffix (init env) name).CONFIG = Paths.Join (init env).CONFIG [name] ∧
    (pkg.DATA = [pkg.DATA_HOME] ++ pkg.DATA_DIRS →
      (WithSuffix pkg name).DATA = Paths.Join pkg.DATA [name]) ∧
    (pkg.CONFIG = [pkg.CONFIG_HOME] ++ pkg.CONFIG_DIRS →
      (WithSuffix pkg name).CONFIG = Paths.Join pkg.CONFIG [name]) := by
  have hdata : ∀ state : XDG, state.DATA = [state.DATA_HOME] ++ state.DATA_DIRS →
      (WithSuffix state name).DATA = Paths.Join state.DATA [name] := by
    intro state hinv
    rw [Paths.Join_eq_map, hinv, WithSuffix_eq]
    simp
  have hconfig : ∀ state : XDG, state.CONFIG = [state.CONFIG_HOME] ++ state.CONFIG_DIRS →
      (WithSuffix state name).CONFIG = Paths.Join state.CONFIG [name] := by
    intro state hinv
    rw [Paths.Join_eq_map, hinv, WithSuffix_eq]
    simp
  exact ⟨hdata (init env) rfl, hconfig (init env) rfl, hdata pkg, hconfig pkg⟩

/-- Witness of C18: scoping the state of an environment with two data dirs by
myapp gives the three entries of DATA, each joined with myapp. -/
theorem C18_scoping_commutes_witness :
    (WithSuffix (init (envOf [("HOME", "/home/alice"), ("XDG_DATA_DIRS", "/opt/d:/srv/d")]))
        "myapp".toList).DATA
      = ["/home/alice/.local/share/myapp".toList, "/opt/d/myapp".toList,
          "/srv/d/myapp".toList] ∧
    (WithSuffix (init (envOf [("HOME", "/home/alice"), ("XDG_DATA_DIRS", "/opt/d:/srv/d")]))
        "myapp".toList).CONFIG
      = Paths.Join
          (init (envOf [("HOME", "/home/alice"), ("XDG_DATA_DIRS", "/opt/d:/srv/d")])).CONFIG
          ["myapp".toList] :=
  ⟨((C18_scoping_commutes (envOf [])
      (init (envOf [("HOME", "/home/alice"), ("XDG_DATA_DIRS", "/opt/d:/srv/d")]))
      "myapp".toList).2.2.1 (by decide)).trans (by decide),
    (C18_scoping_commutes (envOf [])
      (init (envOf [("HOME", "/home/alice"), ("XDG_DATA_DIRS", "/opt/d:/srv/d")]))
      "myapp".toList).2.2.2 (by decide)⟩

/-- C19: joining any name onto a valid path gives a valid path, so each home
that WithSuffix returns is valid when the original home is, and each entry of
the returned DATA_DIRS and CONFIG_DIRS is valid when the original entry at the
same index is. -/
theorem C19_scoping_preserves_validity (pkg : XDG) (p : Path) (name : GoString) :
    (IsValid p = true → IsValid (Path.Join p [name]) = true) ∧
    (IsValid pkg.DATA_HOME = true → IsValid (WithSuffix pkg name).DATA_HOME = true) ∧
    (IsValid pkg.CONFIG_HOME = true → IsValid (WithSuffix pkg name).CONFIG_HOME = true) ∧
    (IsValid pkg.CACHE_HOME = true → IsValid (WithSuffix pkg name).CACHE_HOME = true) ∧
    (∀ (i : Nat) (d : Path), pkg.DATA_DIRS[i]? = some d → IsValid d = true →
      ∃ d', (WithSuffix pkg name).DATA_DIRS[i]? = some d' ∧ IsValid d' = true) ∧
    (∀ (i : Nat) (d : Path), pkg.CONFIG_DIRS[i]? = some d → IsValid d = true →
      ∃ d', (WithSuffix pkg name).CONFIG_DIRS[i]? = some d' ∧ IsValid d' = true) := by
  refine ⟨Path.Join_keeps_valid p [name], Path.Join_keeps_valid _ [name],
    Path.Join_keeps_valid _ [name], Path.Join_keeps_valid _ [name], ?_, ?_⟩
  · intro i d hd hvalid
    refine ⟨Path.Join d [name], ?_, Path.Join_keeps_valid d [name] hvalid⟩
    rw [WithSuffix_DATA_DIRS, List.getElem?_map, hd]
    rfl
  · intro i d hd hvalid
    refine ⟨Path.Join d [name], ?_, Path.Join_keeps_valid d [name] hvalid⟩
    rw [WithSuffix_CONFIG_DIRS, List.getElem?_map, hd]
    rfl

/-- Witness of C19: a valid path stays valid when the empty name, the parent
element, or a name of several parent elements is joined onto it. -/
theorem C19_scoping_preserves_validity_witness :
    IsValid (Path.Join "/usr/share".toList ["".toList]) = true ∧
    IsValid (Path.Join "/usr/share".toList ["..".toList]) = true ∧
    IsValid (Path.Join "/usr/share".toList ["../../../x/../..".toList]) = true ∧
    IsValid (WithSuffix (init (envOf [("HOME", "/home/alice")])) "a/../..".toList).DATA_HOME
      = true :=
  ⟨(C19_scoping_preserves_validity (init (envOf [])) "/usr/share".toList "".toList).1
      (by decide),
    (C19_scoping_preserves_validity (init (envOf [])) "/usr/share".toList "..".toList).1
      (by decide),
    (C19_scoping_preserves_validity (init (envOf [])) "/usr/share".toList
      "../../../x/../..".toList).1 (by decide),
    (C19_scoping_preserves_validity (init (envOf [("HOME", "/home/alice")]))
      "/usr/share".toList "a/../..".toList).2.1 (by decide)⟩

end xdg
